import Mathlib

/-!
Shallow embedding of the core pipeline of `src/app.py` (ELC City Directory
Search): address normalization, address sort keys, schema detection,
year/listing aggregation, year-run compression, and the report assembler
glue, together with proofs settling the specification claims.

Conventions of the embedding:
* Python strings are Lean `String`s; character-level work happens on
  `String.data : List Char`.
* The regular expressions of the source are embedded as explicit character
  scans, restricted to ASCII (`\s` is the ASCII whitespace class, `\d` the
  ASCII digits, `str.upper` / `str.strip` keep their ASCII behaviour; the
  address data of interest is ASCII).
* A missing table cell (pandas `NaN`) is `Option.none`; `pyStrCell` mirrors
  Python's `str(nan) = "nan"`.
* The one reachable dynamic type error (`compress_year_runs` applied to a
  mixed year column) is modelled by an `Option`-valued result: `none`
  models a raised `TypeError`.
-/

/-- ASCII whitespace class: the characters matched by Python's `\s` and
stripped by `str.strip` on ASCII data (space, tab, LF, VT, FF, CR). -/
def isWS (c : Char) : Bool :=
  c == ' ' || c == '\t' || c == '\n' || c == '\r' || c.toNat == 11 || c.toNat == 12

/-- Python `str.strip()` on a character list: drop whitespace from both ends. -/
def stripEnds (l : List Char) : List Char :=
  ((l.dropWhile isWS).reverse.dropWhile isWS).reverse

/-- Embedding of `re.sub(r"\s+", " ", s)`: every maximal run of whitespace
characters is replaced by a single space. -/
def collapseWS : List Char → List Char
  | [] => []
  | [c] => [if isWS c then ' ' else c]
  | c :: d :: cs =>
    if isWS c && isWS d then collapseWS (d :: cs)
    else (if isWS c then ' ' else c) :: collapseWS (d :: cs)

/-- Embedding of `normalize_addr` (src/app.py lines 88-93) on strings:
`str(addr).strip()` followed by `re.sub(r"\s+", " ", s)`. The `addr is None`
branch is handled at call sites through `pyStrCell`. -/
def normalize_addr (addr : String) : String :=
  String.mk (collapseWS (stripEnds addr.data))

/-- Python `str()` applied to a table cell: a missing cell (pandas NaN)
prints as "nan", which is what `.apply(normalize_addr)` or `.astype(str)`
sees on such a cell. -/
def pyStrCell : Option String → String
  | none => "nan"
  | some s => s

/-- Python `str.strip()` on strings. -/
def pyStrip (s : String) : String :=
  String.mk (stripEnds s.data)

/-- First-seen-order deduplication with an explicit seen set, the shape of
both `combine_listings` (src/app.py lines 308-315) and pandas
`drop_duplicates` (line 288). -/
def dedupAux {α : Type} [DecidableEq α] (seen : List α) : List α → List α
  | [] => []
  | x :: xs => if x ∈ seen then dedupAux seen xs else x :: dedupAux (x :: seen) xs

/-- Deduplicate keeping the first occurrence of each element. -/
def dedupFS {α : Type} [DecidableEq α] (l : List α) : List α :=
  dedupAux [] l

/- Lemmas about `dedupAux` / `dedupFS`. -/

theorem mem_dedupAux {α : Type} [DecidableEq α] (a : α) :
    ∀ (seen l : List α), a ∈ dedupAux seen l ↔ a ∈ l ∧ a ∉ seen := by
  intro seen l
  induction l generalizing seen with
  | nil => simp [dedupAux]
  | cons x xs ih =>
    by_cases hx : x ∈ seen
    · rw [dedupAux, if_pos hx, ih]
      constructor
      · rintro ⟨h1, h2⟩
        exact ⟨List.mem_cons_of_mem _ h1, h2⟩
      · rintro ⟨h1, h2⟩
        rcases List.mem_cons.mp h1 with h | h
        · subst h; exact absurd hx h2
        · exact ⟨h, h2⟩
    · rw [dedupAux, if_neg hx]
      simp only [List.mem_cons, ih]
      constructor
      · rintro (h | ⟨h1, h2⟩)
        · subst h; exact ⟨Or.inl rfl, hx⟩
        · refine ⟨Or.inr h1, fun hs => h2 (Or.inr hs)⟩
      · rintro ⟨h1 | h1, h2⟩
        · exact Or.inl h1
        · by_cases hax : a = x
          · exact Or.inl hax
          · exact Or.inr ⟨h1, by simp [hax, h2]⟩

theorem mem_dedupFS {α : Type} [DecidableEq α] (a : α) (l : List α) :
    a ∈ dedupFS l ↔ a ∈ l := by
  rw [dedupFS, mem_dedupAux]
  simp

theorem nodup_dedupAux {α : Type} [DecidableEq α] :
    ∀ (seen l : List α), (dedupAux seen l).Nodup := by
  intro seen l
  induction l generalizing seen with
  | nil => simp [dedupAux]
  | cons x xs ih =>
    by_cases hx : x ∈ seen
    · rw [dedupAux, if_pos hx]; exact ih seen
    · rw [dedupAux, if_neg hx]
      refine List.nodup_cons.mpr ⟨fun hmem => ?_, ih (x :: seen)⟩
      rcases (mem_dedupAux x (x :: seen) xs).mp hmem with ⟨_, h2⟩
      exact h2 (List.mem_cons_self x seen)

theorem nodup_dedupFS {α : Type} [DecidableEq α] (l : List α) :
    (dedupFS l).Nodup :=
  nodup_dedupAux [] l

theorem sublist_dedupAux {α : Type} [DecidableEq α] :
    ∀ (seen l : List α), (dedupAux seen l).Sublist l := by
  intro seen l
  induction l generalizing seen with
  | nil => simp [dedupAux]
  | cons x xs ih =>
    by_cases hx : x ∈ seen
    · rw [dedupAux, if_pos hx]
      exact (ih seen).cons x
    · rw [dedupAux, if_neg hx]
      exact (ih (x :: seen)).cons₂ x

theorem sublist_dedupFS {α : Type} [DecidableEq α] (l : List α) :
    (dedupFS l).Sublist l :=
  sublist_dedupAux [] l

/- Idempotence machinery for `normalize_addr` (claim C9). -/

/-- Canonical form after collapsing: every whitespace character is a plain
space and no two adjacent characters are both whitespace. -/
def wsCanon (l : List Char) : Prop :=
  (∀ c ∈ l, isWS c = true → c = ' ') ∧
    List.Chain' (fun a b => isWS a = false ∨ isWS b = false) l

theorem collapseWS_ne_nil : ∀ (c : Char) (cs : List Char), collapseWS (c :: cs) ≠ [] := by
  intro c cs
  induction cs generalizing c with
  | nil => simp [collapseWS]
  | cons d cs ih =>
    rw [collapseWS]
    by_cases h : isWS c && isWS d
    · rw [if_pos h]; exact ih d
    · rw [if_neg h]; simp

theorem head?_collapseWS (c : Char) (cs : List Char) (hc : isWS c = false) :
    (collapseWS (c :: cs)).head? = some c := by
  cases cs with
  | nil => simp [collapseWS, hc]
  | cons d cs =>
    rw [collapseWS]
    have h : (isWS c && isWS d) = false := by simp [hc]
    rw [if_neg (by simp [h])]
    simp [hc]

theorem getLast?_collapseWS :
    ∀ (l : List Char) (c : Char), l.getLast? = some c → isWS c = false →
      (collapseWS l).getLast? = some c := by
  intro l
  induction l with
  | nil => intro c h; simp at h
  | cons a l ih =>
    intro c hlast hc
    cases l with
    | nil =>
      simp only [List.getLast?_singleton, Option.some.injEq] at hlast
      subst hlast
      simp [collapseWS, hc]
    | cons b l =>
      rw [List.getLast?_cons_cons] at hlast
      rw [collapseWS]
      by_cases h : isWS a && isWS b
      · rw [if_pos h]; exact ih c hlast hc
      · rw [if_neg h]
        obtain ⟨y, ys, hys⟩ := List.exists_cons_of_ne_nil (collapseWS_ne_nil b l)
        rw [hys, List.getLast?_cons_cons, ← hys]
        exact ih c hlast hc

theorem allSpace_collapseWS :
    ∀ (l : List Char), ∀ c ∈ collapseWS l, isWS c = true → c = ' ' := by
  intro l
  induction l with
  | nil => intro c hc; simp [collapseWS] at hc
  | cons a l ih =>
    cases l with
    | nil =>
      intro c hc hws
      simp only [collapseWS, List.mem_singleton] at hc
      subst hc
      by_cases h : isWS a
      · simp [h]
      · rw [if_neg h]; rw [if_neg h] at hws; exact absurd hws (by simp [h])
    | cons b l =>
      intro c hc hws
      rw [collapseWS] at hc
      by_cases h : isWS a && isWS b
      · rw [if_pos h] at hc; exact ih c hc hws
      · rw [if_neg h] at hc
        rcases List.mem_cons.mp hc with hc | hc
        · subst hc
          by_cases ha : isWS a
          · simp [ha]
          · rw [if_neg ha]; rw [if_neg ha] at hws; exact absurd hws (by simp [ha])
        · exact ih c hc hws

theorem chain_collapseWS :
    ∀ (l : List Char),
      List.Chain' (fun a b => isWS a = false ∨ isWS b = false) (collapseWS l) := by
  intro l
  induction l with
  | nil => simp [collapseWS]
  | cons a l ih =>
    cases l with
    | nil => simp [collapseWS]
    | cons b l =>
      rw [collapseWS]
      by_cases h : isWS a && isWS b
      · rw [if_pos h]; exact ih
      · rw [if_neg h]
        rw [List.chain'_cons']
        refine ⟨?_, ih⟩
        intro y hy
        by_cases ha : isWS a
        · have hb : isWS b = false := by
            cases hb : isWS b
            · rfl
            · exact absurd (by simp [ha, hb]) h
          have hhead : (collapseWS (b :: l)).head? = some b := head?_collapseWS b l hb
          rw [hhead] at hy
          cases hy
          exact Or.inr hb
        · exact Or.inl (by rw [if_neg ha]; simpa using ha)

theorem wsCanon_collapseWS (l : List Char) : wsCanon (collapseWS l) :=
  ⟨allSpace_collapseWS l, chain_collapseWS l⟩

theorem collapseWS_of_wsCanon : ∀ (l : List Char), wsCanon l → collapseWS l = l := by
  intro l
  induction l with
  | nil => intro _; rfl
  | cons a l ih =>
    rintro ⟨hsp, hch⟩
    cases l with
    | nil =>
      by_cases h : isWS a
      · have : a = ' ' := hsp a (by simp) h
        simp [collapseWS, h, this]
      · simp [collapseWS, h]
    | cons b l =>
      rw [List.chain'_cons] at hch
      obtain ⟨hab, htail⟩ := hch
      have hnotand : (isWS a && isWS b) = false := by
        rcases hab with h1 | h1 <;> simp [h1]
      have htl : collapseWS (b :: l) = b :: l :=
        ih ⟨fun c hc h => hsp c (List.mem_cons_of_mem _ hc) h, htail⟩
      rw [collapseWS, if_neg (by simp [hnotand]), htl]
      congr 1
      by_cases h : isWS a
      · rw [if_pos h]; exact (hsp a (by simp) h).symm
      · rw [if_neg h]

theorem head?_dropWhile_isWS :
    ∀ (l : List Char) (c : Char), (l.dropWhile isWS).head? = some c → isWS c = false := by
  intro l
  induction l with
  | nil => intro c h; simp [List.dropWhile] at h
  | cons a l ih =>
    intro c h
    by_cases ha : isWS a
    · rw [List.dropWhile_cons, if_pos ha] at h
      exact ih c h
    · rw [List.dropWhile_cons, if_neg ha] at h
      simp only [List.head?_cons, Option.some.injEq] at h
      subst h
      simpa using ha

theorem dropWhile_isWS_of_head (l : List Char)
    (h : ∀ c, l.head? = some c → isWS c = false) : l.dropWhile isWS = l := by
  cases l with
  | nil => rfl
  | cons a l =>
    rw [List.dropWhile_cons, if_neg]
    simp [h a rfl]

theorem head?_stripEnds (l : List Char) (c : Char)
    (h : (stripEnds l).head? = some c) : isWS c = false := by
  rw [stripEnds, List.head?_reverse] at h
  -- the getLast? of a nonempty dropWhile result is the getLast? of its input
  set m := (l.dropWhile isWS).reverse with hm
  have hsuf : (m.dropWhile isWS).IsSuffix m := List.dropWhile_suffix isWS
  obtain ⟨t, ht⟩ := hsuf
  have hne : m.dropWhile isWS ≠ [] := by
    intro hnil
    rw [hnil] at h
    simp at h
  have : m.getLast? = some c := by
    rw [← ht, List.getLast?_append]
    rw [show (m.dropWhile isWS).getLast? = some c from h]
    rfl
  rw [hm, List.getLast?_reverse] at this
  exact head?_dropWhile_isWS l c this

theorem getLast?_stripEnds (l : List Char) (c : Char)
    (h : (stripEnds l).getLast? = some c) : isWS c = false := by
  rw [stripEnds, List.getLast?_reverse] at h
  exact head?_dropWhile_isWS _ c h

theorem stripEnds_of_ends (l : List Char)
    (hh : ∀ c, l.head? = some c → isWS c = false)
    (hl : ∀ c, l.getLast? = some c → isWS c = false) : stripEnds l = l := by
  rw [stripEnds]
  rw [dropWhile_isWS_of_head l hh]
  rw [dropWhile_isWS_of_head l.reverse (fun c hc => hl c (by rwa [List.head?_reverse] at hc))]
  exact List.reverse_reverse l

/-- Claim C9 - `normalize_addr` is idempotent: normalizing an
already-normalized address changes nothing, for every input string. -/
theorem normalize_addr_idem (s : String) :
    normalize_addr (normalize_addr s) = normalize_addr s := by
  rw [normalize_addr, normalize_addr]
  congr 1
  have hdata : (String.mk (collapseWS (stripEnds s.data))).data = collapseWS (stripEnds s.data) := rfl
  rw [hdata]
  set u := stripEnds s.data with hu
  set v := collapseWS u with hv
  have hstrip : stripEnds v = v := by
    apply stripEnds_of_ends
    · intro c hc
      cases hcu : u with
      | nil => rw [hv, hcu] at hc; simp [collapseWS] at hc
      | cons a u' =>
        have ha : isWS a = false := head?_stripEnds s.data a (by rw [← hu, hcu]; rfl)
        rw [hv, hcu, head?_collapseWS a u' ha] at hc
        cases hc
        exact ha
    · intro c hc
      cases hcu : u with
      | nil => rw [hv, hcu] at hc; simp [collapseWS] at hc
      | cons a u' =>
        obtain ⟨d, hd⟩ : ∃ d, u.getLast? = some d := by
          cases hr : u.reverse with
          | nil =>
            exact absurd (by simpa using congrArg List.reverse hr) (by rw [hcu]; simp)
          | cons d r =>
            refine ⟨d, ?_⟩
            rw [← List.head?_reverse, hr]
            rfl
        have hdws : isWS d = false := getLast?_stripEnds s.data d (by rw [← hu]; exact hd)
        have hvd : v.getLast? = some d := by
          rw [hv, hcu]
          exact getLast?_collapseWS (a :: u') d (by rw [← hcu]; exact hd) hdws
        rw [hvd] at hc
        cases hc
        exact hdws
  rw [hstrip]
  exact collapseWS_of_wsCanon v (by rw [hv]; exact wsCanon_collapseWS u)

/- Lexicographic comparison of character lists by code point, the semantics
of Python string comparison used both by `sorted` keys and by pandas
`sort_values` on string columns. -/

/-- Strict lexicographic order on character lists (Python `str.__lt__`). -/
def lexLtChars : List Char → List Char → Bool
  | [], [] => false
  | [], _ :: _ => true
  | _ :: _, [] => false
  | a :: as, b :: bs =>
    if a < b then true else if b < a then false else lexLtChars as bs

/-- Reflexive lexicographic order on character lists (Python `str.__le__`). -/
def lexLeChars : List Char → List Char → Bool
  | [], _ => true
  | _ :: _, [] => false
  | a :: as, b :: bs =>
    if a < b then true else if b < a then false else lexLeChars as bs

theorem lexLeChars_cons_iff (a b : Char) (as bs : List Char) :
    lexLeChars (a :: as) (b :: bs) = true ↔
      a < b ∨ (a = b ∧ lexLeChars as bs = true) := by
  rw [lexLeChars]
  by_cases h1 : a < b
  · simp [h1]
  · rw [if_neg h1]
    by_cases h2 : b < a
    · simp only [if_pos h2]
      constructor
      · intro h; cases h
      · rintro (h | ⟨h, _⟩)
        · exact absurd h h1
        · subst h; exact absurd h2 h1
    · rw [if_neg h2]
      have hab : a = b := le_antisymm (not_lt.mp h2) (not_lt.mp h1)
      simp [hab, h1]

theorem lexLeChars_total : ∀ (x y : List Char),
    lexLeChars x y = true ∨ lexLeChars y x = true := by
  intro x
  induction x with
  | nil => intro y; exact Or.inl rfl
  | cons a as ih =>
    intro y
    cases y with
    | nil => exact Or.inr rfl
    | cons b bs =>
      by_cases h1 : a < b
      · exact Or.inl ((lexLeChars_cons_iff a b as bs).mpr (Or.inl h1))
      · by_cases h2 : b < a
        · exact Or.inr ((lexLeChars_cons_iff b a bs as).mpr (Or.inl h2))
        · have hab : a = b := le_antisymm (not_lt.mp h2) (not_lt.mp h1)
          rcases ih bs with h | h
          · exact Or.inl ((lexLeChars_cons_iff a b as bs).mpr (Or.inr ⟨hab, h⟩))
          · exact Or.inr ((lexLeChars_cons_iff b a bs as).mpr (Or.inr ⟨hab.symm, h⟩))

theorem lexLeChars_trans : ∀ (x y z : List Char),
    lexLeChars x y = true → lexLeChars y z = true → lexLeChars x z = true := by
  intro x
  induction x with
  | nil => intro y z _ _; rfl
  | cons a as ih =>
    intro y z hxy hyz
    cases y with
    | nil => simp [lexLeChars] at hxy
    | cons b bs =>
      cases z with
      | nil => simp [lexLeChars] at hyz
      | cons c cs =>
        rcases (lexLeChars_cons_iff a b as bs).mp hxy with h1 | ⟨h1, h1'⟩
        · rcases (lexLeChars_cons_iff b c bs cs).mp hyz with h2 | ⟨h2, _⟩
          · exact (lexLeChars_cons_iff a c as cs).mpr (Or.inl (lt_trans h1 h2))
          · exact (lexLeChars_cons_iff a c as cs).mpr (Or.inl (h2 ▸ h1))
        · rcases (lexLeChars_cons_iff b c bs cs).mp hyz with h2 | ⟨h2, h2'⟩
          · exact (lexLeChars_cons_iff a c as cs).mpr (Or.inl (h1 ▸ h2))
          · exact (lexLeChars_cons_iff a c as cs).mpr
              (Or.inr ⟨h1.trans h2, ih bs cs h1' h2'⟩)

theorem lexLeChars_antisymm : ∀ (x y : List Char),
    lexLeChars x y = true → lexLeChars y x = true → x = y := by
  intro x
  induction x with
  | nil =>
    intro y _ hyx
    cases y with
    | nil => rfl
    | cons b bs => simp [lexLeChars] at hyx
  | cons a as ih =>
    intro y hxy hyx
    cases y with
    | nil => simp [lexLeChars] at hxy
    | cons b bs =>
      rcases (lexLeChars_cons_iff a b as bs).mp hxy with h1 | ⟨h1, h1'⟩
      · rcases (lexLeChars_cons_iff b a bs as).mp hyx with h2 | ⟨h2, _⟩
        · exact absurd h2 (lt_asymm h1)
        · exact absurd h1 (h2 ▸ lt_irrefl a)
      · rcases (lexLeChars_cons_iff b a bs as).mp hyx with h2 | ⟨h2, h2'⟩
        · exact absurd h2 (h1 ▸ lt_irrefl a)
        · rw [h1, ih bs h1' h2']

/- The address sort key (src/app.py lines 95-128). -/

/-- ASCII value of a digit string, the value produced by Python `int()` on a
run of ASCII digits. -/
def digitsVal (l : List Char) : Nat :=
  l.foldl (fun n c => 10 * n + (c.toNat - 48)) 0

/-- Embedding of `re.match(r"^\s*(\d+)", s)`: optional leading whitespace
followed by at least one digit, returning the digit group's value. -/
def matchLeadingNum (l : List Char) : Option Nat :=
  let ds := (l.dropWhile isWS).takeWhile Char.isDigit
  if ds.isEmpty then none else some (digitsVal ds)

/-- Embedding of `re.search(r"#\s*(\d+)", s)`: the leftmost position with a
hash mark followed by optional whitespace and at least one digit wins. -/
def searchUnit : List Char → Option Nat
  | [] => none
  | c :: rest =>
    if c == '#' then
      let ds := (rest.dropWhile isWS).takeWhile Char.isDigit
      if ds.isEmpty then searchUnit rest else some (digitsVal ds)
    else searchUnit rest

/-- Embedding of `re.sub(r"^\s*\d+\s*", "", s)`: remove a leading
whitespace-digits-whitespace block when the digit part is nonempty. -/
def subLeadingNum (l : List Char) : List Char :=
  if ((l.dropWhile isWS).takeWhile Char.isDigit).isEmpty then l
  else ((l.dropWhile isWS).dropWhile Char.isDigit).dropWhile isWS

/-- Attempt to match `\s*#\s*\d+\s*` anchored at the head of the list,
returning the remainder after the match. -/
def unitMatchAt (l : List Char) : Option (List Char) :=
  match l.dropWhile isWS with
  | [] => none
  | c :: r =>
    if c == '#' then
      if ((r.dropWhile isWS).takeWhile Char.isDigit).isEmpty then none
      else some (((r.dropWhile isWS).dropWhile Char.isDigit).dropWhile isWS)
    else none

theorem unitMatchAt_length : ∀ (l r : List Char), unitMatchAt l = some r →
    r.length < l.length := by
  intro l r h
  rw [unitMatchAt] at h
  split at h
  · cases h
  · rename_i c r0 hd
    split at h
    · split at h
      · cases h
      · cases h
        have h1 : (((r0.dropWhile isWS).dropWhile Char.isDigit).dropWhile isWS).length ≤ r0.length := by
          calc (((r0.dropWhile isWS).dropWhile Char.isDigit).dropWhile isWS).length
              ≤ ((r0.dropWhile isWS).dropWhile Char.isDigit).length :=
                (List.dropWhile_sublist _).length_le
            _ ≤ (r0.dropWhile isWS).length := (List.dropWhile_sublist _).length_le
            _ ≤ r0.length := (List.dropWhile_sublist _).length_le
        have h2 : (c :: r0).length ≤ l.length := by
          rw [← hd]; exact (List.dropWhile_sublist _).length_le
        simp only [List.length_cons] at h2
        omega
    · cases h

/-- Fuel-driven scan implementing `re.sub(r"\s*#\s*\d+\s*", " ", s)` with
global replacement: try the pattern at every position left to right, replace
each non-overlapping match by a single space. The fuel is the list length,
which always suffices since every step strictly shrinks the list. -/
def subUnitsF : Nat → List Char → List Char
  | 0, _ => []
  | _, [] => []
  | fuel + 1, c :: cs =>
    match unitMatchAt (c :: cs) with
    | some r => ' ' :: subUnitsF fuel r
    | none => c :: subUnitsF fuel cs

/-- Embedding of `re.sub(r"\s*#\s*\d+\s*", " ", s)` over a whole list. -/
def subUnits (l : List Char) : List Char :=
  subUnitsF l.length l

/-- Embedding of `parse_address_for_sort` (src/app.py lines 95-128): the
4-tuple (street name upper, house number, unit number, full upper address).
Python `str.upper` is `Char.toUpper` on the ASCII data of interest. The
`addr is None` branch is handled at call sites; string arguments land here. -/
def parse_address_for_sort (addr : String) : String × Int × Int × String :=
  let aUp : List Char := (normalize_addr addr).data.map Char.toUpper
  let house : Int := Int.ofNat ((matchLeadingNum aUp).getD 0)
  let unit : Int := Int.ofNat ((searchUnit aUp).getD 0)
  let street : List Char := stripEnds (collapseWS (subUnits (subLeadingNum aUp)))
  (String.mk street, house, unit, String.mk aUp)

/-- Strict comparison of two sort keys, Python tuple `<` on the 4-tuples. -/
def keyLt (a b : String × Int × Int × String) : Bool :=
  lexLtChars a.1.data b.1.data ||
    (a.1 == b.1 && (decide (a.2.1 < b.2.1) ||
      (a.2.1 == b.2.1 && (decide (a.2.2.1 < b.2.2.1) ||
        (a.2.2.1 == b.2.2.1 && lexLtChars a.2.2.2.data b.2.2.2.data)))))

/-- Order used by `sorted(all_addresses, key=parse_address_for_sort)`:
address x precedes address y when key y is not strictly below key x. -/
def addrKeyLe (x y : String) : Prop :=
  keyLt (parse_address_for_sort y) (parse_address_for_sort x) = false

instance : DecidableRel addrKeyLe := fun x y => by
  unfold addrKeyLe
  infer_instance

/-- Embedding of line 521, `sorted(all_addresses, key=parse_address_for_sort)`:
Python sort is stable, as is insertion sort. -/
def sortAddresses (l : List String) : List String :=
  List.insertionSort addrKeyLe l

/- Tabular model for ingestion and schema detection (src/app.py lines
130-181 and 223-270). A table is an ordered list of named columns; a cell
is `none` for pandas NaN. DataFrame columns share one length; row-wise
operations zip columns. -/

/-- One table column: a list of cells, `none` modelling NaN. -/
abbrev Col := List (Option String)

/-- A tabular dataset: ordered, named columns. -/
structure Table where
  cols : List (String × Col)

/-- Pandas `df[name]` with exact column name (unique names assumed). -/
def getColD (t : Table) (name : String) : Col :=
  ((t.cols.find? (fun c => c.1 == name)).map (fun c => c.2)).getD []

/-- Pandas `name in df.columns` with exact matching. -/
def hasCol (t : Table) (name : String) : Bool :=
  (t.cols.find? (fun c => c.1 == name)).isSome

/-- Lookup through the dictionary `cols_upper = {col.upper(): col}` built at
line 138: keys are uppercased names and a later duplicate overwrites an
earlier one, so the last matching column wins. -/
def getColUpper (t : Table) (nameUpper : String) : Col :=
  ((t.cols.reverse.find? (fun c => String.mk (c.1.data.map Char.toUpper) == nameUpper)).map
    (fun c => c.2)).getD []

/-- Membership test `nameUpper in cols_upper`. -/
def hasColUpper (t : Table) (nameUpper : String) : Bool :=
  (t.cols.reverse.find? (fun c => String.mk (c.1.data.map Char.toUpper) == nameUpper)).isSome

/-- Pandas `df[name] = v`: replace the column in place when the name exists,
else append a new column at the end. -/
def setCol (t : Table) (name : String) (v : Col) : Table :=
  if t.cols.any (fun c => c.1 == name) then
    ⟨t.cols.map (fun c => if c.1 == name then (c.1, v) else c)⟩
  else ⟨t.cols ++ [(name, v)]⟩

/-- Forward fill (`Series.ffill`): a missing cell inherits the nearest
previous present value. -/
def ffillFrom (prev : Option String) : Col → Col
  | [] => []
  | none :: rest => prev :: ffillFrom prev rest
  | some s :: rest => some s :: ffillFrom (some s) rest

/-- Embedding of `Series.ffill()`. -/
def ffill (c : Col) : Col := ffillFrom none c

/-- Elementwise `.apply(normalize_addr)` on a column: pandas applies the
function to every cell, a NaN cell stringifying to "nan". -/
def applyNormalize (c : Col) : Col :=
  c.map (fun cell => some (normalize_addr (pyStrCell cell)))

/-- One row of the `combine_addresses` closure (src/app.py lines 150-156):
NaN cells become "", the two parts join with one space, and the result is
stripped and normalized. -/
def combine_addresses (a1 a2 : Option String) : Option String :=
  let s1 := match a1 with | none => "" | some s => pyStrip s
  let s2 := match a2 with | none => "" | some s => pyStrip s
  some (normalize_addr (pyStrip (s1 ++ " " ++ s2)))

/-- Fallback synonym list of address column names, in source order
(src/app.py lines 169-172). -/
def address_patterns : List String :=
  ["STREET ADDRESS", "STREET_ADDRESS", "PROPERTY ADDRESS",
   "PROPERTY_ADDRESS", "SITE ADDRESS", "LOCATION", "STREET", "ADDR"]

/-- Synonym list as the specification words it, for comparison with
`address_patterns`: the spec claims the fallback scan covers exactly
(STREET ADDRESS, PROPERTY ADDRESS, SITE ADDRESS, LOCATION, STREET, ADDR). -/
def spec_address_patterns : List String :=
  ["STREET ADDRESS", "PROPERTY ADDRESS", "SITE ADDRESS", "LOCATION", "STREET", "ADDR"]

/-- Embedding of `find_and_combine_address_columns` (src/app.py lines
130-181): resolution precedence is an exact ADDRESS column, then
ADDRESS1 and ADDRESS2 combined, then ADDRESS1 alone, then the fallback
synonym scan with the first present pattern winning. -/
def find_and_combine_address_columns (t : Table) : Table :=
  if hasColUpper t "ADDRESS" then
    setCol t "ADDRESS" (applyNormalize (getColUpper t "ADDRESS"))
  else if hasColUpper t "ADDRESS1" && hasColUpper t "ADDRESS2" then
    setCol t "ADDRESS"
      (List.zipWith combine_addresses (getColUpper t "ADDRESS1") (getColUpper t "ADDRESS2"))
  else if hasColUpper t "ADDRESS1" then
    setCol t "ADDRESS" (applyNormalize (getColUpper t "ADDRESS1"))
  else
    match address_patterns.find? (fun p => hasColUpper t p) with
    | some p => setCol t "ADDRESS" (applyNormalize (getColUpper t p))
    | none => t

/-- Header normalization on ingestion, line 228:
`[str(c).strip().upper() for c in df.columns]`. -/
def upperStripHeaders (t : Table) : Table :=
  ⟨t.cols.map (fun c => (String.mk ((stripEnds c.1.data).map Char.toUpper), c.2))⟩

/-- Embedding of the CSV branch of `read_input` (src/app.py lines 226-231):
headers stripped and uppercased; when an ADDRESS column exists, it is
forward-filled and then normalized. The spreadsheet branch treats its
ADDRESS column identically (lines 263-270). -/
def read_input_csv (t : Table) : Table :=
  let t1 := upperStripHeaders t
  if hasCol t1 "ADDRESS" then
    setCol t1 "ADDRESS"
      ((ffill (getColD t1 "ADDRESS")).map (fun cell => some (normalize_addr (pyStrCell cell))))
  else t1

/-- Line 497: `df.columns = [c.upper() for c in df.columns]`. -/
def upperHeaders (t : Table) : Table :=
  ⟨t.cols.map (fun c => (String.mk (c.1.data.map Char.toUpper), c.2))⟩

/-- Ingestion pipeline every uploaded table passes before address selection:
`read_input`, header uppercasing (line 497), then address resolution
(line 500). -/
def upload_pipeline (t : Table) : Table :=
  find_and_combine_address_columns (upperHeaders (read_input_csv t))

/- Year and listing aggregation (src/app.py lines 272-324). -/

/-- Value of a YEAR cell as `pd.to_numeric(col, errors="coerce")` sees it: a
blank cell (NaN) coerces to NaN, numeric text to its value, any other text
to NaN. The embedding restricts numeric cells to integer-valued ones;
`intVal n` stands for a cell whose text parses to the number n. -/
inductive YearCell : Type
  | blank : YearCell
  | intVal : Int → YearCell
  | text : String → YearCell
deriving DecidableEq

/-- Result of `pd.to_numeric(cell, errors="coerce")` followed by the NaN
check of `dropna`: the parsed integer, or `none` for a dropped row. -/
def parseYear : YearCell → Option Int
  | .blank => none
  | .intVal n => some n
  | .text _ => none

/-- Cleaning steps of the year-aware branch (lines 300-306): coerce YEAR,
drop rows whose YEAR failed to parse, cast to int, strip LISTING, keep
non-empty listings. -/
def cleanRows (rows : List (YearCell × String)) : List (Int × String) :=
  ((rows.filterMap (fun r => (parseYear r.1).map (fun y => (y, r.2)))).map
    (fun r => (r.1, pyStrip r.2))).filter (fun r => r.2.length > 0)

/-- Row order produced by `sort_values(["YEAR", "LISTING"])`: ascending
year, then ascending listing text. Rows tied on both keys are identical,
so any sorting algorithm yields the same list; insertion sort is used. -/
def pairLeP (a b : Int × String) : Prop :=
  a.1 < b.1 ∨ (a.1 = b.1 ∧ lexLeChars a.2.data b.2.data = true)

instance : DecidableRel pairLeP := fun a b => by unfold pairLeP; infer_instance

instance : IsTotal (Int × String) pairLeP := ⟨by
  intro a b
  rcases lt_trichotomy a.1 b.1 with h | h | h
  · exact Or.inl (Or.inl h)
  · rcases lexLeChars_total a.2.data b.2.data with h2 | h2
    · exact Or.inl (Or.inr ⟨h, h2⟩)
    · exact Or.inr (Or.inr ⟨h.symm, h2⟩)
  · exact Or.inr (Or.inl h)⟩

instance : IsTrans (Int × String) pairLeP := ⟨by
  intro a b c hab hbc
  rcases hab with h1 | ⟨h1, h1'⟩
  · rcases hbc with h2 | ⟨h2, _⟩
    · exact Or.inl (lt_trans h1 h2)
    · exact Or.inl (h2 ▸ h1)
  · rcases hbc with h2 | ⟨h2, h2'⟩
    · exact Or.inl (h1 ▸ h2)
    · exact Or.inr ⟨h1.trans h2, lexLeChars_trans _ _ _ h1' h2'⟩⟩

/-- Python string order as a proposition, for per-year listing sorting. -/
def strLeP (a b : String) : Prop := lexLeChars a.data b.data = true

instance : DecidableRel strLeP := fun a b => by unfold strLeP; infer_instance

instance : IsTotal String strLeP := ⟨fun a b => lexLeChars_total a.data b.data⟩

instance : IsTrans String strLeP := ⟨fun a b c => lexLeChars_trans a.data b.data c.data⟩

instance : IsAntisymm String strLeP := ⟨by
  intro a b hab hba
  have h := lexLeChars_antisymm a.data b.data hab hba
  cases a; cases b
  exact congrArg String.mk h⟩

/-- Embedding of `combine_listings` (lines 308-315): first-seen
deduplication with a seen set, then a comma-space join. -/
def combine_listings (l : List String) : String :=
  String.intercalate ", " (dedupFS l)

/-- Embedding of the year-aware branch of `format_year_listing` (lines
296-324): clean, sort by (YEAR, LISTING) ascending, group by YEAR (group
keys ascending), combine each group's listings. The groups of the sorted
frame are its year-filtered subsequences, with keys in order of first
appearance in the sorted frame. -/
def formatYearAware (rows : List (YearCell × String)) : List (Int × String) :=
  let s := List.insertionSort pairLeP (cleanRows rows)
  (dedupFS (s.map (fun r => r.1))).map
    (fun y => (y, combine_listings ((s.filter (fun r => r.1 == y)).map (fun r => r.2))))

/-- Embedding of the year-absent branch of `format_year_listing` (lines
282-294): stringify and strip the listings, keep non-empty ones, drop
duplicates keeping first occurrences; each survivor becomes its own row. -/
def formatYearAbsentListings (listings : List String) : List String :=
  dedupFS ((listings.map pyStrip).filter (fun s => s.length > 0))

/-- Year-aware aggregation as the specification words it (spec section 4.3):
group filtered rows by YEAR ascending; within each year sort the LISTING
values ascending, deduplicate exactly keeping the first occurrence's
position in the sorted order, join with ", "; one row per year present. -/
def specAggregate (t : List (Int × String)) : List (Int × String) :=
  (List.insertionSort (fun a b : Int => a ≤ b) (dedupFS (t.map (fun r => r.1)))).map
    (fun y => (y, String.intercalate ", "
      (dedupFS (List.insertionSort strLeP ((t.filter (fun r => r.1 == y)).map (fun r => r.2))))))

/- Year-run compression (src/app.py lines 326-366). -/

/-- Value found in the "Year(s)" column handed to `compress_year_runs`: the
string "N/A" in year-absent mode, an integer year otherwise. -/
inductive YearLabel : Type
  | na : YearLabel
  | year : Int → YearLabel
deriving DecidableEq

/-- Python `str(y)` on a "Year(s)" value. -/
def strYearLabel : YearLabel → String
  | .na => "N/A"
  | .year n => toString n

/-- Test `str(y) == "N/A"` of line 343. An integer year never prints as
"N/A" (its text is a sign and digits), so the test holds exactly on `na`. -/
def isNaLabel : YearLabel → Bool
  | .na => true
  | .year _ => false

/-- Python `prev_y + 1` on a "Year(s)" value: adding 1 to the string "N/A"
raises TypeError, modelled by `none`. -/
def yearSucc : YearLabel → Option YearLabel
  | .na => none
  | .year n => some (.year (n + 1))

/-- Run label of lines 358 and 364:
`f"{start_y}-{prev_y}"` when `start_y != prev_y`, else `f"{start_y}"`.
Python `!=` between an int and a string is True, matching the decidable
equality of `YearLabel`. -/
def labelOf (s p : YearLabel) : String :=
  if s ≠ p then strYearLabel s ++ "-" ++ strYearLabel p else strYearLabel s

/-- Loop of lines 351-365, carrying (start_y, prev_y, prev_occ); `none`
models the TypeError raised when `prev_y + 1` is computed on "N/A". -/
def compressLoop (start_y prev_y : YearLabel) (prev_occ : String) :
    List (YearLabel × String) → Option (List (String × String))
  | [] => some [(labelOf start_y prev_y, prev_occ)]
  | (y, occ) :: rest =>
    match yearSucc prev_y with
    | none => none
    | some p1 =>
      if y = p1 ∧ occ = prev_occ then compressLoop start_y y prev_occ rest
      else (compressLoop y y occ rest).map
        (fun rs => (labelOf start_y prev_y, prev_occ) :: rs)

/-- Embedding of `compress_year_runs` (src/app.py lines 326-366): empty
frame short-circuit, all-"N/A" passthrough, else the run-merging loop. -/
def compress_year_runs : List (YearLabel × String) → Option (List (String × String))
  | [] => some []
  | (y, occ) :: rest =>
    if ((y, occ) :: rest).all (fun p => isNaLabel p.1) then
      some (((y, occ) :: rest).map (fun p => (strYearLabel p.1, p.2)))
    else compressLoop y y occ rest

/-- Length of the maximal prefix run extending year `prev` with occupant
text `occ`: each next row must carry exactly the successor year and the
same occupant text. -/
def runLen (prev : Int) (occ : String) : List (Int × String) → Nat
  | [] => 0
  | (y2, o2) :: rest =>
    if y2 = prev + 1 ∧ o2 = occ then 1 + runLen y2 occ rest else 0

/-- Label of a run from year `a` to year `b` as the spec words it:
"startYear-endYear" for a run of length at least two, "startYear" alone
for a run of length one. -/
def runLabel (a b : Int) : String :=
  if a = b then toString a else toString a ++ "-" ++ toString b

/-- Run compression as the specification words it (spec section 4.4): take
the maximal prefix run of consecutive years with identical occupant text,
emit one labelled row for it, continue after the run; empty input yields
empty output. -/
def specCompress : List (Int × String) → List (String × String)
  | [] => []
  | (y, occ) :: rest =>
    (runLabel y (y + runLen y occ rest), occ) :: specCompress (rest.drop (runLen y occ rest))
termination_by l => l.length
decreasing_by
  simp only [List.length_drop, List.length_cons]
  omega

/- Report assembler (src/app.py lines 427-489). -/

/-- One canonical row of the uploaded table as the report builders see it:
the resolved ADDRESS, the raw YEAR cell, and the LISTING text. -/
structure CRow where
  address : String
  year : YearCell
  listing : String
deriving DecidableEq

/-- Block of rows for one address, line 440: `df[df["ADDRESS"] == addr]`,
projected to the columns the aggregation reads. -/
def rowsFor (addr : String) (df : List CRow) : List (YearCell × String) :=
  (df.filter (fun r => r.address == addr)).map (fun r => (r.year, r.listing))

/-- Embedding of `format_year_listing` (lines 272-324) for a table that has
a LISTING column (guaranteed by the guard at line 510): dispatch on the
presence of a YEAR column. -/
def format_year_listing (hasYear : Bool) (rows : List (YearCell × String)) :
    List (YearLabel × String) :=
  if hasYear then
    (formatYearAware rows).map (fun p => (YearLabel.year p.1, p.2))
  else
    (formatYearAbsentListings (rows.map (fun r => r.2))).map (fun s => (YearLabel.na, s))

/-- Rows the subject report adds for one selected address (lines 439-453):
a single "No results" row when compression yields nothing, else one row per
compressed run. The `none` case is unreachable for the year columns
`format_year_listing` produces. -/
def subjectEntriesFor (hasYear : Bool) (df : List CRow) (addr : String) :
    List (String × String) :=
  match compress_year_runs (format_year_listing hasYear (rowsFor addr df)) with
  | none => []
  | some [] => [("", addr ++ " — No results")]
  | some runs => runs.map (fun p => (p.1, addr ++ " — " ++ p.2))

/-- Body rows of the subject report table (lines 439-453). -/
def subject_report_rows (subject_selected : List String) (hasYear : Bool)
    (df : List CRow) : List (String × String) :=
  subject_selected.flatMap (subjectEntriesFor hasYear df)

/-- Row the adjoining report adds for one selected address (lines 471-487):
direction from the user's direction map (`dict.get` with default ""), the
raw address, and one line per compressed run with non-empty occupant text,
or "No results" when no line survives. -/
def adjoiningRowFor (hasYear : Bool) (df : List CRow) (dirMap : String → String)
    (addr : String) : String × String × String :=
  let runs := (compress_year_runs (format_year_listing hasYear (rowsFor addr df))).getD []
  let occLines := (runs.filter (fun p => p.2 != "")).map (fun p => p.2 ++ " (" ++ p.1 ++ ")")
  (dirMap addr, addr,
    if occLines.isEmpty then "No results" else String.intercalate (String.mk ['\n']) occLines)

/-- Body rows of the adjoining report table (lines 471-487). -/
def adjoining_report_rows (adjoining_selected : List String) (hasYear : Bool)
    (df : List CRow) (dirMap : String → String) : List (String × String × String) :=
  adjoining_selected.map (adjoiningRowFor hasYear df dirMap)

/- Claim C1: compression merges maximal runs of consecutive years with
identical occupant text. -/

theorem labelOf_year (a b : Int) : labelOf (.year a) (.year b) = runLabel a b := by
  rw [labelOf, runLabel]
  by_cases h : a = b
  · rw [if_neg (by simp [h]), if_pos h]
    rfl
  · rw [if_pos (by simp [h]), if_neg h]
    rfl

theorem compressLoop_year (l : List (Int × String)) :
    ∀ (start prev : Int) (occ : String),
      compressLoop (.year start) (.year prev) occ
          (l.map (fun p => (YearLabel.year p.1, p.2))) =
        some ((runLabel start (prev + (runLen prev occ l : Int)), occ) ::
          specCompress (l.drop (runLen prev occ l))) := by
  induction l with
  | nil =>
    intro start prev occ
    rw [List.map_nil, compressLoop, runLen, labelOf_year]
    simp [specCompress]
  | cons hd tl ih =>
    intro start prev occ
    obtain ⟨y2, o2⟩ := hd
    rw [List.map_cons, compressLoop]
    simp only [yearSucc]
    by_cases hcond : y2 = prev + 1 ∧ o2 = occ
    · rw [if_pos (⟨by rw [hcond.1], hcond.2⟩ :
        (YearLabel.year y2 = YearLabel.year (prev + 1) ∧ o2 = occ))]
      rw [runLen, if_pos hcond]
      have harith : prev + ((1 + runLen y2 occ tl : Nat) : Int) =
          y2 + (runLen y2 occ tl : Int) := by
        rw [hcond.1]; push_cast; ring
      rw [harith, Nat.add_comm 1 (runLen y2 occ tl), List.drop_succ_cons]
      exact ih start y2 occ
    · rw [if_neg (by
        rintro ⟨h1, h2⟩
        exact hcond ⟨by simpa using h1, h2⟩)]
      rw [ih y2 y2 o2]
      rw [runLen, if_neg hcond]
      simp only [Option.map_some', Nat.cast_zero, add_zero, List.drop_zero]
      rw [labelOf_year]
      congr 2
      rw [specCompress]

/-- Claim C1 - for every ordered-by-year list of (year, occupant) rows with
integer years, `compress_year_runs` computes exactly the spec's run
compression: every maximal run of consecutive years (N immediately followed
by N+1) with identical occupant text becomes one "startYear-endYear" row, a
length-1 run is labelled "startYear" alone, a year gap never merges, and
empty input yields empty output (the l = [] instance of the equation). -/
theorem compress_year_runs_merges_runs (l : List (Int × String))
    (hsort : List.Pairwise (fun a b : Int × String => a.1 < b.1) l) :
    compress_year_runs (l.map (fun p => (YearLabel.year p.1, p.2))) =
      some (specCompress l) := by
  cases l with
  | nil =>
    rw [List.map_nil, compress_year_runs]
    rw [specCompress.eq_def]
  | cons hd tl =>
    obtain ⟨y, occ⟩ := hd
    rw [List.map_cons, compress_year_runs]
    rw [if_neg (by simp [isNaLabel])]
    rw [compressLoop_year tl y y occ, specCompress]

/-- Witness for C1 at the spec's concrete examples: the contiguous run
[(1970,"A"),(1971,"A"),(1972,"B")] compresses to
[("1970-1971","A"),("1972","B")], and the gapped input
[(1970,"A"),(1972,"A")] does not merge. -/
theorem compress_year_runs_merges_runs_witness :
    List.Pairwise (fun a b : Int × String => a.1 < b.1)
        [((1970 : Int), "A"), (1971, "A"), (1972, "B")] ∧
      compress_year_runs
          [(YearLabel.year 1970, "A"), (YearLabel.year 1971, "A"), (YearLabel.year 1972, "B")] =
        some [("1970-1971", "A"), ("1972", "B")] ∧
      compress_year_runs [(YearLabel.year 1970, "A"), (YearLabel.year 1972, "A")] =
        some [("1970", "A"), ("1972", "A")] := by
  refine ⟨by decide, ?_, ?_⟩
  · have h := compress_year_runs_merges_runs
      [((1970 : Int), "A"), (1971, "A"), (1972, "B")] (by decide)
    rw [show List.map (fun p : Int × String => (YearLabel.year p.1, p.2))
        [((1970 : Int), "A"), (1971, "A"), (1972, "B")] =
        [(YearLabel.year 1970, "A"), (YearLabel.year 1971, "A"), (YearLabel.year 1972, "B")]
        from rfl] at h
    rw [h]
    congr 1
    simp +decide [specCompress.eq_def, runLen, runLabel]
  · have h := compress_year_runs_merges_runs [((1970 : Int), "A"), (1972, "A")] (by decide)
    rw [show List.map (fun p : Int × String => (YearLabel.year p.1, p.2))
        [((1970 : Int), "A"), (1972, "A")] =
        [(YearLabel.year 1970, "A"), (YearLabel.year 1972, "A")] from rfl] at h
    rw [h]
    congr 1
    simp +decide [specCompress.eq_def, runLen, runLabel]

/- Claim C10: totality of compression under its label-homogeneity
precondition, and the exact crash condition for mixed inputs. -/

theorem compress_year_runs_na (l : List String) :
    compress_year_runs (l.map (fun s => (YearLabel.na, s))) =
      some (l.map (fun s => ("N/A", s))) := by
  cases l with
  | nil => rfl
  | cons s rest =>
    rw [List.map_cons, compress_year_runs, if_pos]
    · simp [strYearLabel]
    · simp [isNaLabel, List.all_map]

theorem cons_na_decomp (y : YearLabel) (o : String) (tl : List (YearLabel × String)) :
    ((y = YearLabel.na ∧ tl ≠ []) ∨
        ∃ pre o' suf, tl = pre ++ (YearLabel.na, o') :: suf ∧ suf ≠ []) ↔
      ∃ pre o' suf, (y, o) :: tl = pre ++ (YearLabel.na, o') :: suf ∧ suf ≠ [] := by
  constructor
  · rintro (⟨hy, htl⟩ | ⟨pre, o', suf, heq, hsuf⟩)
    · exact ⟨[], o, tl, by simp [hy], htl⟩
    · exact ⟨(y, o) :: pre, o', suf, by rw [heq]; rfl, hsuf⟩
  · rintro ⟨pre, o', suf, heq, hsuf⟩
    cases pre with
    | nil =>
      simp only [List.nil_append, List.cons.injEq, Prod.mk.injEq] at heq
      exact Or.inl ⟨heq.1.1, heq.2 ▸ hsuf⟩
    | cons p pre' =>
      simp only [List.cons_append, List.cons.injEq] at heq
      exact Or.inr ⟨pre', o', suf, heq.2, hsuf⟩

theorem compressLoop_eq_none_iff (l : List (YearLabel × String)) :
    ∀ (start prev : YearLabel) (occ : String),
      compressLoop start prev occ l = none ↔
        ((prev = YearLabel.na ∧ l ≠ []) ∨
          ∃ pre o suf, l = pre ++ (YearLabel.na, o) :: suf ∧ suf ≠ []) := by
  induction l with
  | nil =>
    intro start prev occ
    simp [compressLoop]
  | cons hd tl ih =>
    intro start prev occ
    obtain ⟨y, o⟩ := hd
    rw [compressLoop]
    cases prev with
    | na =>
      constructor
      · intro _
        exact Or.inl ⟨rfl, by simp⟩
      · intro _
        rfl
    | year n =>
      simp only [yearSucc]
      by_cases hcond : y = YearLabel.year (n + 1) ∧ o = occ
      · rw [if_pos hcond, ih start y occ, cons_na_decomp y o tl]
        simp
      · rw [if_neg hcond, Option.map_eq_none', ih y y o, cons_na_decomp y o tl]
        simp

theorem compress_year_runs_eq_none_iff (rows : List (YearLabel × String)) :
    compress_year_runs rows = none ↔
      ¬(∀ p ∈ rows, p.1 = YearLabel.na) ∧
        ∃ pre o suf, rows = pre ++ (YearLabel.na, o) :: suf ∧ suf ≠ [] := by
  cases rows with
  | nil => simp [compress_year_runs]
  | cons hd tl =>
    obtain ⟨y, o⟩ := hd
    rw [compress_year_runs]
    by_cases hall : ((y, o) :: tl).all (fun p => isNaLabel p.1) = true
    · rw [if_pos hall]
      have hforall : ∀ p ∈ (y, o) :: tl, p.1 = YearLabel.na := by
        intro p hp
        have := List.all_eq_true.mp hall p hp
        cases hpy : p.1 with
        | na => rfl
        | year m => rw [hpy] at this; cases this
      constructor
      · intro h; cases h
      · rintro ⟨h1, _⟩
        exact absurd hforall h1
    · rw [if_neg hall]
      rw [compressLoop_eq_none_iff tl y y o, cons_na_decomp y o tl]
      have hnot : ¬(∀ p ∈ (y, o) :: tl, p.1 = YearLabel.na) := by
        intro hforall
        apply hall
        apply List.all_eq_true.mpr
        intro p hp
        rw [hforall p hp]
        rfl
      exact ⟨fun h => ⟨hnot, h⟩, fun h => h.2⟩

/-- Counterexample to C10 as stated: the input
[(1970,"A"),("N/A","B")] is mixed (neither all "N/A" nor all integers) and
its guard fails, yet `compress_year_runs` completes without any type error
because the successor computation only ever touches the integer 1970; the
claim's assertion that a mixed input always reaches `prev_y + 1` on a
non-integer is false. -/
theorem compress_year_runs_mixed_counterexample :
    List.all [(YearLabel.year 1970, "A"), (YearLabel.na, "B")] (fun p => isNaLabel p.1) = false ∧
      List.all [(YearLabel.year 1970, "A"), (YearLabel.na, "B")] (fun p => !(isNaLabel p.1)) = false ∧
      compress_year_runs [(YearLabel.year 1970, "A"), (YearLabel.na, "B")] =
        some [("1970", "A"), ("N/A", "B")] :=
  ⟨by decide, by decide, by decide⟩

/-- Claim C10 (amended) - `compress_year_runs` is total under the
precondition that its rows are all labelled "N/A" or all labelled with
integer years; `format_year_listing` always establishes that precondition
in both of its modes; and a mixed input raises the type error in
`prev_y + 1` exactly when some "N/A" label sits at a non-final position
(a mixed input whose only "N/A" labels are final completes normally). -/
theorem compress_year_runs_totality :
    (∀ rows : List (YearLabel × String),
        ((∀ p ∈ rows, p.1 = YearLabel.na) ∨ (∀ p ∈ rows, p.1 ≠ YearLabel.na)) →
          ∃ out, compress_year_runs rows = some out) ∧
      (∀ (hasYear : Bool) (rows : List (YearCell × String)),
        ∃ out, compress_year_runs (format_year_listing hasYear rows) = some out) ∧
      (∀ rows : List (YearLabel × String),
        compress_year_runs rows = none ↔
          ¬(∀ p ∈ rows, p.1 = YearLabel.na) ∧
            ∃ pre o suf, rows = pre ++ (YearLabel.na, o) :: suf ∧ suf ≠ []) := by
  have hmain : ∀ rows : List (YearLabel × String),
      ((∀ p ∈ rows, p.1 = YearLabel.na) ∨ (∀ p ∈ rows, p.1 ≠ YearLabel.na)) →
        ∃ out, compress_year_runs rows = some out := by
    intro rows hpre
    cases hres : compress_year_runs rows with
    | some out => exact ⟨out, rfl⟩
    | none =>
      exfalso
      obtain ⟨hnotall, pre, o, suf, hdecomp, _⟩ :=
        (compress_year_runs_eq_none_iff rows).mp hres
      rcases hpre with hpre | hpre
      · exact hnotall hpre
      · have hmem : (YearLabel.na, o) ∈ rows := by
          rw [hdecomp]
          exact List.mem_append_right pre (List.mem_cons_self _ _)
        exact hpre (YearLabel.na, o) hmem rfl
  refine ⟨hmain, ?_, compress_year_runs_eq_none_iff⟩
  intro hasYear rows
  apply hmain
  cases hasYear
  · refine Or.inl ?_
    intro p hp
    rw [format_year_listing] at hp
    simp only [Bool.false_eq_true, if_false, List.mem_map] at hp
    obtain ⟨s, _, hs⟩ := hp
    rw [← hs]
  · refine Or.inr ?_
    intro p hp
    rw [format_year_listing] at hp
    simp only [if_true, List.mem_map] at hp
    obtain ⟨q, _, hq⟩ := hp
    rw [← hq]
    simp

/-- Witness for C10 at a concrete all-integer input: the precondition holds
and compression succeeds. -/
theorem compress_year_runs_totality_witness :
    ((∀ p ∈ [(YearLabel.year 2000, "X"), (YearLabel.year 2001, "X")], p.1 = YearLabel.na) ∨
        (∀ p ∈ [(YearLabel.year 2000, "X"), (YearLabel.year 2001, "X")], p.1 ≠ YearLabel.na)) ∧
      ∃ out, compress_year_runs [(YearLabel.year 2000, "X"), (YearLabel.year 2001, "X")] = some out :=
  ⟨Or.inr (by decide),
    compress_year_runs_totality.1 [(YearLabel.year 2000, "X"), (YearLabel.year 2001, "X")]
      (Or.inr (by decide))⟩

/-- Claim C3 - in year-absent mode the aggregation is exactly: strip the
listing values, keep the non-empty ones, deduplicate preserving first-seen
order without sorting, one "N/A"-labelled row per distinct survivor; and the
compressor is a no-op passthrough on those rows, so N distinct listings
always yield N separate ("N/A", listing) output rows. -/
theorem year_absent_no_compression (rows : List (YearCell × String)) :
    format_year_listing false rows =
        (dedupFS (((rows.map (fun r => r.2)).map pyStrip).filter
          (fun s => s.length > 0))).map (fun s => (YearLabel.na, s)) ∧
      compress_year_runs (format_year_listing false rows) =
        some ((dedupFS (((rows.map (fun r => r.2)).map pyStrip).filter
          (fun s => s.length > 0))).map (fun s => ("N/A", s))) := by
  have h1 : format_year_listing false rows =
      (dedupFS (((rows.map (fun r => r.2)).map pyStrip).filter
        (fun s => s.length > 0))).map (fun s => (YearLabel.na, s)) := by
    rw [format_year_listing, if_neg (by simp), formatYearAbsentListings]
  refine ⟨h1, ?_⟩
  rw [h1]
  exact compress_year_runs_na _

/-- Claim C6 - a selected address matching zero canonical rows produces in
the subject artifact exactly one entry "{address} — No results" (with an
empty year cell), and in the adjoining artifact a row whose occupant cell
is exactly "No results"; the empty selection result never yields an empty
or failing artifact row set. -/
theorem no_results_entries (hasYear : Bool) (df : List CRow) (addr : String)
    (dirMap : String → String)
    (hempty : df.filter (fun r => r.address == addr) = []) :
    subjectEntriesFor hasYear df addr = [("", addr ++ " — No results")] ∧
      adjoiningRowFor hasYear df dirMap addr = (dirMap addr, addr, "No results") := by
  have hrows : rowsFor addr df = [] := by rw [rowsFor, hempty]; rfl
  have hfmt : format_year_listing hasYear (rowsFor addr df) = [] := by
    rw [hrows, format_year_listing]
    cases hasYear
    · rw [if_neg (by simp)]
      rfl
    · rw [if_pos rfl]
      rfl
  constructor
  · rw [subjectEntriesFor, hfmt]
    rfl
  · rw [adjoiningRowFor, hfmt]
    rfl

/-- Witness for C6 at a concrete table: the address "2 B St" matches no row
of a one-row table, and both report builders emit their "No results" forms. -/
theorem no_results_entries_witness :
    (([⟨"1 A St", YearCell.intVal 1980, "L"⟩] : List CRow).filter
        (fun r => r.address == "2 B St") = []) ∧
      subjectEntriesFor true [⟨"1 A St", YearCell.intVal 1980, "L"⟩] "2 B St" =
        [("", "2 B St — No results")] ∧
      adjoiningRowFor true [⟨"1 A St", YearCell.intVal 1980, "L"⟩] (fun _ => "") "2 B St" =
        ("", "2 B St", "No results") := by
  have h := no_results_entries true [⟨"1 A St", YearCell.intVal 1980, "L"⟩] "2 B St"
    (fun _ => "") (by decide)
  exact ⟨by decide, h.1, h.2⟩

/- Claim C8: rows with blank or unparseable YEAR are dropped silently, but
no sign check exists, so negative integer years enter the aggregation. -/

theorem filterMap_parseYear_filter (rows : List (YearCell × String)) :
    (rows.filter (fun r => (parseYear r.1).isSome)).filterMap
        (fun r => (parseYear r.1).map (fun y => (y, r.2))) =
      rows.filterMap (fun r => (parseYear r.1).map (fun y => (y, r.2))) := by
  induction rows with
  | nil => rfl
  | cons r rest ih =>
    cases hp : parseYear r.1 with
    | none =>
      rw [List.filter_cons, if_neg (by simp [hp]), List.filterMap_cons]
      simp [hp, ih]
    | some y =>
      rw [List.filter_cons, if_pos (by simp [hp]), List.filterMap_cons, List.filterMap_cons]
      simp [hp, ih]

/-- Counterexample to C8 as stated: the YEAR cell "-5" parses numerically,
is not dropped, and enters year-aware aggregation as the negative integer
-5, refuting the claim that every aggregated YEAR is non-negative. -/
theorem negative_year_enters_aggregation :
    formatYearAware [(YearCell.intVal (-5), "A")] = [((-5 : Int), "A")] ∧ (-5 : Int) < 0 :=
  ⟨by decide, by decide⟩

/-- Claim C8 (amended) - year-aware aggregation depends only on the rows
whose YEAR parses as a number (blank or unparseable rows are dropped
silently, without failing the dataset), and every aggregated year is the
parsed integer value of some input row's YEAR cell; no non-negativity check
is performed, so that integer may be negative. -/
theorem year_aware_drops_unparseable :
    (∀ rows : List (YearCell × String),
        formatYearAware rows =
          formatYearAware (rows.filter (fun r => (parseYear r.1).isSome))) ∧
      (∀ (rows : List (YearCell × String)) (y : Int) (occ : String),
        (y, occ) ∈ formatYearAware rows → ∃ r ∈ rows, parseYear r.1 = some y) := by
  constructor
  · intro rows
    have hclean : cleanRows (rows.filter (fun r => (parseYear r.1).isSome)) = cleanRows rows := by
      rw [cleanRows, cleanRows, filterMap_parseYear_filter]
    simp only [formatYearAware]
    rw [hclean]
  · intro rows y occ hmem
    simp only [formatYearAware, List.mem_map] at hmem
    obtain ⟨y', hy', heq⟩ := hmem
    have hyy : y' = y := congrArg Prod.fst heq
    subst hyy
    rw [mem_dedupFS] at hy'
    obtain ⟨p, hp, hfst⟩ := List.mem_map.mp hy'
    have hpclean : p ∈ cleanRows rows :=
      (List.perm_insertionSort pairLeP (cleanRows rows)).mem_iff.mp hp
    rw [cleanRows] at hpclean
    have hpmap := (List.mem_filter.mp hpclean).1
    obtain ⟨q, hq, hqp⟩ := List.mem_map.mp hpmap
    obtain ⟨r, hr, hrq⟩ := List.mem_filterMap.mp hq
    obtain ⟨a, ha, hay⟩ := Option.map_eq_some'.mp hrq
    refine ⟨r, hr, ?_⟩
    rw [ha]
    have h1 : a = q.1 := by rw [← hay]
    have h2 : q.1 = p.1 := by rw [← hqp]
    rw [h1, h2, hfst]

/-- Witness for C8: a concrete parseable row appears in the aggregation and
the theorem recovers its source row. -/
theorem year_aware_drops_unparseable_witness :
    ((1980 : Int), "A") ∈ formatYearAware [(YearCell.intVal 1980, "A")] ∧
      ∃ r ∈ [(YearCell.intVal 1980, "A")], parseYear r.1 = some 1980 :=
  ⟨by decide, year_aware_drops_unparseable.2 [(YearCell.intVal 1980, "A")] 1980 "A" (by decide)⟩

/- Claim C2: the year-aware aggregation equals the spec's
group-sort-dedup-join description. -/

theorem pairLeP_fst_le {a b : Int × String} (h : pairLeP a b) : a.1 ≤ b.1 := by
  rcases h with h | ⟨h, _⟩
  · exact le_of_lt h
  · exact le_of_eq h

theorem sorted_nodup_eq {α : Type} (r : α → α → Prop) [IsAntisymm α r]
    (l₁ l₂ : List α) (h₁ : List.Pairwise r l₁) (h₂ : List.Pairwise r l₂)
    (hn₁ : l₁.Nodup) (hn₂ : l₂.Nodup) (hmem : ∀ a, a ∈ l₁ ↔ a ∈ l₂) : l₁ = l₂ :=
  List.eq_of_perm_of_sorted ((List.perm_ext_iff_of_nodup hn₁ hn₂).mpr hmem) h₁ h₂

theorem years_of_sorted (t : List (Int × String)) :
    dedupFS ((List.insertionSort pairLeP t).map (fun r => r.1)) =
      List.insertionSort (fun a b : Int => a ≤ b) (dedupFS (t.map (fun r => r.1))) := by
  have hp : List.Pairwise pairLeP (List.insertionSort pairLeP t) :=
    List.sorted_insertionSort pairLeP t
  have hmap : List.Pairwise (fun a b : Int => a ≤ b)
      ((List.insertionSort pairLeP t).map (fun r => r.1)) :=
    hp.map (fun r => r.1) (fun a b h => pairLeP_fst_le h)
  apply sorted_nodup_eq (fun a b : Int => a ≤ b)
  · exact List.Pairwise.sublist (sublist_dedupFS _) hmap
  · exact List.sorted_insertionSort _ _
  · exact nodup_dedupFS _
  · exact ((List.perm_insertionSort _ _).nodup_iff).mpr (nodup_dedupFS _)
  · intro a
    rw [mem_dedupFS, List.mem_map,
      (List.perm_insertionSort (fun a b : Int => a ≤ b) _).mem_iff, mem_dedupFS, List.mem_map]
    constructor
    · rintro ⟨p, hp2, rfl⟩
      exact ⟨p, (List.perm_insertionSort pairLeP t).mem_iff.mp hp2, rfl⟩
    · rintro ⟨p, hp2, rfl⟩
      exact ⟨p, (List.perm_insertionSort pairLeP t).mem_iff.mpr hp2, rfl⟩

theorem group_of_sorted (t : List (Int × String)) (y : Int) :
    ((List.insertionSort pairLeP t).filter (fun r => r.1 == y)).map (fun r => r.2) =
      List.insertionSort strLeP ((t.filter (fun r => r.1 == y)).map (fun r => r.2)) := by
  have hperm : List.Perm
      (((List.insertionSort pairLeP t).filter (fun r => r.1 == y)).map (fun r => r.2))
      (List.insertionSort strLeP ((t.filter (fun r => r.1 == y)).map (fun r => r.2))) := by
    have h1 : List.Perm (List.insertionSort pairLeP t) t := List.perm_insertionSort pairLeP t
    have h2 := (h1.filter (fun r => r.1 == y)).map (fun r => r.2)
    have h3 : List.Perm
        (List.insertionSort strLeP ((t.filter (fun r => r.1 == y)).map (fun r => r.2)))
        ((t.filter (fun r => r.1 == y)).map (fun r => r.2)) := List.perm_insertionSort strLeP _
    exact h2.trans h3.symm
  have hsort1 : List.Pairwise strLeP
      (((List.insertionSort pairLeP t).filter (fun r => r.1 == y)).map (fun r => r.2)) := by
    have hs : List.Pairwise pairLeP
        ((List.insertionSort pairLeP t).filter (fun r => r.1 == y)) :=
      List.Pairwise.sublist (List.filter_sublist _) (List.sorted_insertionSort pairLeP t)
    have hall : ∀ p ∈ (List.insertionSort pairLeP t).filter (fun r => r.1 == y), p.1 = y := by
      intro p hp
      exact eq_of_beq (List.mem_filter.mp hp).2
    have hs2 : List.Pairwise (fun a b : Int × String => strLeP a.2 b.2)
        ((List.insertionSort pairLeP t).filter (fun r => r.1 == y)) := by
      refine List.Pairwise.imp_of_mem ?_ hs
      intro a b ha hb hab
      rcases hab with h | ⟨_, h⟩
      · rw [hall a ha, hall b hb] at h
        exact absurd h (lt_irrefl y)
      · exact h
    exact @List.Pairwise.map String (Int × String) (fun a b => strLeP a.2 b.2) _ strLeP
      (fun r => r.2) (fun a b h => h) hs2
  exact List.eq_of_perm_of_sorted hperm hsort1 (List.sorted_insertionSort strLeP _)

/-- Claim C2 - for every set of canonical rows of one address, year-aware
aggregation groups the cleaned rows by YEAR in ascending order and, within
each year, sorts the LISTING values ascending, deduplicates exactly keeping
the first occurrence's position in the sorted order, and joins with ", ";
it produces exactly one row per year present in the filtered data (the
years of `specAggregate`'s index list). The second conjunct checks the
spec's example: listings ["Acme Co","Acme Co","Beta Inc"] for 1980 give
exactly "Acme Co, Beta Inc". -/
theorem year_aware_aggregation_spec :
    (∀ rows : List (YearCell × String),
        formatYearAware rows = specAggregate (cleanRows rows)) ∧
      formatYearAware [(YearCell.intVal 1980, "Acme Co"), (YearCell.intVal 1980, "Acme Co"),
          (YearCell.intVal 1980, "Beta Inc")] = [((1980 : Int), "Acme Co, Beta Inc")] := by
  constructor
  · intro rows
    simp only [formatYearAware, specAggregate, combine_listings]
    rw [← years_of_sorted (cleanRows rows)]
    apply List.map_congr_left
    intro y hy
    rw [group_of_sorted (cleanRows rows) y]
  · decide

/-- Claim C4 - `parse_address_for_sort` is a deterministic total function
from strings to 4-tuples: the empty string maps to ("", 0, 0, ""); the
house number defaults to 0 when the normalized uppercased address has no
leading digits; the unit number defaults to 0 when no "#N" pattern occurs
and otherwise the first "#N" match wins; and sorting the spec's example
addresses by the key orders street name alphabetically, then house number
numerically, then unit number numerically. -/
theorem parse_address_for_sort_contract :
    parse_address_for_sort "" = ("", 0, 0, "") ∧
      (∀ addr : String,
        (((normalize_addr addr).data.map Char.toUpper).dropWhile isWS).takeWhile
            Char.isDigit = [] →
          (parse_address_for_sort addr).2.1 = 0) ∧
      (∀ addr : String,
        searchUnit ((normalize_addr addr).data.map Char.toUpper) = none →
          (parse_address_for_sort addr).2.2.1 = 0) ∧
      (∀ (addr : String) (n : Nat),
        searchUnit ((normalize_addr addr).data.map Char.toUpper) = some n →
          (parse_address_for_sort addr).2.2.1 = Int.ofNat n) ∧
      sortAddresses ["123 Main St #2", "123 Main St #1", "45 Main St", "123 Elm St"] =
        ["123 Elm St", "45 Main St", "123 Main St #1", "123 Main St #2"] := by
  refine ⟨by decide, ?_, ?_, ?_, by decide⟩
  · intro addr h
    simp only [parse_address_for_sort, matchLeadingNum, h]
    rfl
  · intro addr h
    simp only [parse_address_for_sort, h]
    rfl
  · intro addr n h
    simp only [parse_address_for_sort, h]
    rfl

/-- Witness for C4 at concrete addresses: "Main St" has neither leading
digits nor a unit pattern and both defaults apply; "12 Oak St #7" yields
unit 7 from its first "#N" match. -/
theorem parse_address_for_sort_contract_witness :
    ((((normalize_addr "Main St").data.map Char.toUpper).dropWhile isWS).takeWhile
        Char.isDigit = []) ∧
      (parse_address_for_sort "Main St").2.1 = 0 ∧
      searchUnit ((normalize_addr "Main St").data.map Char.toUpper) = none ∧
      (parse_address_for_sort "Main St").2.2.1 = 0 ∧
      searchUnit ((normalize_addr "12 Oak St #7").data.map Char.toUpper) = some 7 ∧
      (parse_address_for_sort "12 Oak St #7").2.2.1 = Int.ofNat 7 :=
  ⟨by decide, parse_address_for_sort_contract.2.1 "Main St" (by decide), by decide,
    parse_address_for_sort_contract.2.2.1 "Main St" (by decide), by decide,
    parse_address_for_sort_contract.2.2.2.1 "12 Oak St #7" 7 (by decide)⟩

/- Claims C5 and C7: schema detection and ingestion. -/

theorem find?_map_set (name : String) (v : Col) :
    ∀ cols : List (String × Col), cols.any (fun c => c.1 == name) = true →
      (cols.map (fun c => if c.1 == name then (c.1, v) else c)).find?
          (fun c => c.1 == name) = some (name, v) := by
  intro cols
  induction cols with
  | nil => intro h; cases h
  | cons c cs ih =>
    intro hany
    rw [List.map_cons]
    by_cases hc : c.1 == name
    · rw [if_pos hc, @List.find?_cons_of_pos _ (fun c => c.1 == name) (c.1, v) _ hc]
      rw [show c.1 = name from eq_of_beq hc]
    · rw [if_neg hc, @List.find?_cons_of_neg _ (fun c => c.1 == name) c _ hc]
      apply ih
      rcases List.any_eq_true.mp hany with ⟨x, hx, hxname⟩
      rcases List.mem_cons.mp hx with hx | hx
      · exact absurd (hx ▸ hxname) hc
      · exact List.any_eq_true.mpr ⟨x, hx, hxname⟩

theorem getColD_setCol (t : Table) (name : String) (v : Col) :
    getColD (setCol t name v) name = v := by
  rw [setCol]
  by_cases hany : t.cols.any (fun c => c.1 == name) = true
  · rw [if_pos hany, getColD]
    rw [show (Table.mk (t.cols.map (fun c => if c.1 == name then (c.1, v) else c))).cols =
      t.cols.map (fun c => if c.1 == name then (c.1, v) else c) from rfl]
    rw [find?_map_set name v t.cols hany]
    rfl
  · rw [if_neg hany, getColD]
    rw [show (Table.mk (t.cols ++ [(name, v)])).cols = t.cols ++ [(name, v)] from rfl]
    rw [List.find?_append]
    have hnone : t.cols.find? (fun c => c.1 == name) = none := by
      rw [List.find?_eq_none]
      intro x hx hxname
      exact hany (List.any_eq_true.mpr ⟨x, hx, hxname⟩)
    rw [hnone, @List.find?_cons_of_pos _ (fun c => c.1 == name) (name, v) _ (by simp)]
    rfl

/-- Claim C7 (amended) - forward fill happens exactly for a column already
named ADDRESS in the ingested file (after header stripping and uppercasing),
inside `read_input` and before normalization; the counterexample shows it
does not happen for addresses resolved from other columns. -/
theorem ffill_before_normalize_for_address_column (t : Table)
    (h : hasCol (upperStripHeaders t) "ADDRESS" = true) :
    getColD (read_input_csv t) "ADDRESS" =
      (ffill (getColD (upperStripHeaders t) "ADDRESS")).map
        (fun cell => some (normalize_addr (pyStrCell cell))) := by
  rw [read_input_csv]
  simp only [h, if_true]
  rw [getColD_setCol]

/-- Counterexample to C7 as stated: a table whose address arrives through
ADDRESS1 is not forward-filled anywhere in the pipeline - the missing
second cell stringifies to "nan" and is normalized as the text "nan"
instead of inheriting the previous address, whereas forward-filling before
normalization would have repeated "12 A St". -/
theorem ffill_only_for_address_column_counterexample :
    getColD (upload_pipeline (Table.mk [("ADDRESS1", [some "12 A St", none])])) "ADDRESS" =
        [some "12 A St", some "nan"] ∧
      (ffill [some "12 A St", none]).map (fun cell => some (normalize_addr (pyStrCell cell))) =
        [some "12 A St", some "12 A St"] ∧
      ([some "12 A St", some "nan"] : Col) ≠ [some "12 A St", some "12 A St"] :=
  ⟨by decide, by decide, by decide⟩

/-- Witness for C7 at a concrete table carrying an ADDRESS column with a
blank cell: the blank inherits the previous address and is then normalized. -/
theorem ffill_before_normalize_witness :
    hasCol (upperStripHeaders (Table.mk [("Address", [some " 1  B St ", none])])) "ADDRESS" = true ∧
      getColD (read_input_csv (Table.mk [("Address", [some " 1  B St ", none])])) "ADDRESS" =
        [some "1 B St", some "1 B St"] := by
  refine ⟨by decide, ?_⟩
  rw [ffill_before_normalize_for_address_column (Table.mk [("Address", [some " 1  B St ", none])])
    (by decide)]
  decide

theorem find?_first_of_split {α : Type} (pred : α → Bool) :
    ∀ (pre : List α) (p : α) (suf : List α), (∀ q ∈ pre, pred q = false) → pred p = true →
      List.find? pred (pre ++ p :: suf) = some p := by
  intro pre
  induction pre with
  | nil =>
    intro p suf _ hp
    rw [List.nil_append]
    exact List.find?_cons_of_pos _ hp
  | cons q pre' ih =>
    intro p suf hq hp
    rw [List.cons_append,
      List.find?_cons_of_neg _ (by simp [hq q (List.mem_cons_self q pre')])]
    exact ih p suf (fun x hx => hq x (List.mem_cons_of_mem q hx)) hp

/-- Counterexample to C5 as stated: a table whose only column is
STREET_ADDRESS carries none of the claim's resolution sources - no ADDRESS,
no ADDRESS1, and its name is not in the claim's six-entry synonym list -
yet the code produces an ADDRESS column from it, because the source's
fallback list also contains the underscore variants STREET_ADDRESS and
PROPERTY_ADDRESS. -/
theorem address_synonyms_counterexample :
    hasColUpper (Table.mk [("STREET_ADDRESS", [some "9 Oak St"])]) "ADDRESS" = false ∧
      hasColUpper (Table.mk [("STREET_ADDRESS", [some "9 Oak St"])]) "ADDRESS1" = false ∧
      "STREET_ADDRESS" ∉ spec_address_patterns ∧
      hasCol (find_and_combine_address_columns
          (Table.mk [("STREET_ADDRESS", [some "9 Oak St"])])) "ADDRESS" = true ∧
      getColD (find_and_combine_address_columns
          (Table.mk [("STREET_ADDRESS", [some "9 Oak St"])])) "ADDRESS" = [some "9 Oak St"] :=
  ⟨by decide, by decide, by decide, by decide, by decide⟩

/-- Claim C5 (amended) - address-column resolution precedence: (a) an
ADDRESS column wins outright and is normalized in place, even when
ADDRESS1/ADDRESS2 are also present, so the combination step is never
attempted; (b) without ADDRESS, ADDRESS1 and ADDRESS2 together are combined
row-wise with a single space and normalized; (c) ADDRESS1 alone is used as
the source; (d) otherwise the fixed ordered synonym list STREET ADDRESS,
STREET_ADDRESS, PROPERTY ADDRESS, PROPERTY_ADDRESS, SITE ADDRESS, LOCATION,
STREET, ADDR is scanned and the first present name wins. -/
theorem find_and_combine_address_columns_precedence :
    (∀ t : Table, hasColUpper t "ADDRESS" = true →
        find_and_combine_address_columns t =
          setCol t "ADDRESS" (applyNormalize (getColUpper t "ADDRESS"))) ∧
      (∀ t : Table, hasColUpper t "ADDRESS" = false → hasColUpper t "ADDRESS1" = true →
        hasColUpper t "ADDRESS2" = true →
        find_and_combine_address_columns t =
          setCol t "ADDRESS" (List.zipWith combine_addresses
            (getColUpper t "ADDRESS1") (getColUpper t "ADDRESS2"))) ∧
      (∀ t : Table, hasColUpper t "ADDRESS" = false → hasColUpper t "ADDRESS1" = true →
        hasColUpper t "ADDRESS2" = false →
        find_and_combine_address_columns t =
          setCol t "ADDRESS" (applyNormalize (getColUpper t "ADDRESS1"))) ∧
      (∀ (t : Table) (pre : List String) (p : String) (suf : List String),
        hasColUpper t "ADDRESS" = false → hasColUpper t "ADDRESS1" = false →
        address_patterns = pre ++ p :: suf →
        (∀ q ∈ pre, hasColUpper t q = false) → hasColUpper t p = true →
        find_and_combine_address_columns t =
          setCol t "ADDRESS" (applyNormalize (getColUpper t p))) := by
  refine ⟨?_, ?_, ?_, ?_⟩
  · intro t h
    rw [find_and_combine_address_columns, if_pos h]
  · intro t hA h1 h2
    rw [find_and_combine_address_columns, if_neg (by simp [hA]),
      if_pos (by rw [h1, h2]; rfl)]
  · intro t hA h1 h2
    rw [find_and_combine_address_columns, if_neg (by simp [hA]),
      if_neg (by simp [h2]), if_pos h1]
  · intro t pre p suf hA h1 hsplit hpre hp
    rw [find_and_combine_address_columns, if_neg (by simp [hA]),
      if_neg (by simp [h1]), if_neg (by simp [h1])]
    rw [hsplit, find?_first_of_split (fun q => hasColUpper t q) pre p suf hpre hp]

/-- Witness for C5: branch (a) applies to a concrete table holding ADDRESS
as well as ADDRESS1/ADDRESS2 (ADDRESS wins; the combination is skipped),
and branch (d) applies to a table whose only address-like column is
LOCATION. -/
theorem find_and_combine_address_columns_precedence_witness :
    hasColUpper (Table.mk [("ADDRESS", [some "1 A"]), ("ADDRESS1", [some "x"]),
        ("ADDRESS2", [some "y"])]) "ADDRESS" = true ∧
      find_and_combine_address_columns
          (Table.mk [("ADDRESS", [some "1 A"]), ("ADDRESS1", [some "x"]), ("ADDRESS2", [some "y"])]) =
        setCol (Table.mk [("ADDRESS", [some "1 A"]), ("ADDRESS1", [some "x"]), ("ADDRESS2", [some "y"])])
          "ADDRESS" (applyNormalize (getColUpper
            (Table.mk [("ADDRESS", [some "1 A"]), ("ADDRESS1", [some "x"]), ("ADDRESS2", [some "y"])])
            "ADDRESS")) ∧
      find_and_combine_address_columns (Table.mk [("LOCATION", [some "z"])]) =
        setCol (Table.mk [("LOCATION", [some "z"])]) "ADDRESS"
          (applyNormalize (getColUpper (Table.mk [("LOCATION", [some "z"])]) "LOCATION")) :=
  ⟨by decide,
    find_and_combine_address_columns_precedence.1
      (Table.mk [("ADDRESS", [some "1 A"]), ("ADDRESS1", [some "x"]), ("ADDRESS2", [some "y"])])
      (by decide),
    find_and_combine_address_columns_precedence.2.2.2
      (Table.mk [("LOCATION", [some "z"])])
      ["STREET ADDRESS", "STREET_ADDRESS", "PROPERTY ADDRESS", "PROPERTY_ADDRESS", "SITE ADDRESS"]
      "LOCATION" ["STREET", "ADDR"] (by decide) (by decide) (by decide) (by decide) (by decide)⟩
